import Mathlib

/-!
Verification of the libmussh resolution pipeline and execution engine.

The definitions below are a shallow embedding of the Rust sources:
`src/utils.rs`, `src/config.rs`, `src/multiplex.rs`, `src/ssh.rs`,
`src/error.rs`.  `indexmap::IndexSet` is modelled as a `List` built with
first-wins duplicate absorption, `indexmap::IndexMap` as an association
`List` with replace-in-place insertion, and `BTreeMap` as an association
`List` queried only through lookup and key membership (the claims proved
here never depend on `BTreeMap`'s sorted iteration order).
-/

namespace Libmussh

/-! ### Ordered-set primitives (model of IndexSet / IndexMap) -/

/-- One insertion into an ordered set: a duplicate is absorbed, keeping the
first occurrence's position. -/
def insertIdem {α : Type} [DecidableEq α] (acc : List α) (x : α) : List α :=
  if x ∈ acc then acc else acc ++ [x]

/-- Model of `utils::as_set` / `IndexSet::from_iter`: build an ordered set from a
sequence, duplicates absorbed first-wins. -/
def asSet {α : Type} [DecidableEq α] (l : List α) : List α :=
  l.foldl insertIdem []

/-- Association-list lookup, the model of `BTreeMap::get` and
`IndexMap::get` (first matching key wins). -/
def alookup {α β : Type} [DecidableEq α] : List (α × β) → α → Option β
  | [], _ => none
  | (k, v) :: rest, a => if k = a then some v else alookup rest a

/-- Model of `IndexMap::insert`: replace the value in place when the key is present,
otherwise append the pair at the end. -/
def imInsert {α β : Type} [DecidableEq α] (k : α) (v : β) (mp : List (α × β)) :
    List (α × β) :=
  if k ∈ mp.map Prod.fst then mp.map (fun q => if q.1 = k then (k, v) else q)
  else mp ++ [(k, v)]

/-! ### Data model (`config.rs`) -/

/-- Model of `config::Alias`: a per-host command rewrite. -/
structure Alias where
  command : String
  aliasfor : String
deriving DecidableEq

/-- Model of `config::Command`: the literal shell string of a configured command. -/
structure Command where
  command : String
deriving DecidableEq

/-- Model of `config::Hosts`: one hostlist entry. -/
structure Hosts where
  hostnames : List String
deriving DecidableEq

/-- Model of `config::Host`: one host record. -/
structure Host where
  hostname : String
  pem : Option String
  port : Option Nat
  username : String
  alias_ : Option (List Alias)
deriving DecidableEq

/-- Model of `config::Mussh`: the base configuration (hostlist, hosts and cmd
tables). -/
structure Mussh where
  hostlist : List (String × Hosts)
  hosts : List (String × Host)
  cmd : List (String × Command)
deriving DecidableEq

/-- Model of `config::HostsCmds`: the four ordered selector sets of a request. -/
structure HostsCmds where
  hosts : List String
  sync_hosts : List String
  cmds : List String
  sync_cmds : List String
deriving DecidableEq

/-- Model of `utils::CmdType`. -/
inductive CmdType
  | Cmd
  | SyncCmd
deriving DecidableEq

/-- Model of `utils::HostType`. -/
inductive HostType
  | Host
  | SyncHost
deriving DecidableEq

/-- Model of `utils::unwanted_host`: a selector whose first character is `'!'` yields
the remainder after the `'!'` (the Rust `host.split_at(1).1` splits at byte
index 1, which is exactly the remainder after a one-byte `'!'` first
character; `starts_with('!')` holds iff the first character is `'!'`). -/
def unwanted_host (host : String) : Option String :=
  match host.data with
  | c :: rest => if c = '!' then some (String.mk rest) else none
  | [] => none

/-! ### Resolution pipeline (`config.rs`, duplicated verbatim in `ssh.rs`) -/

/-- Model of `Mussh::hostnames`: expand a hostlist key to its hostnames, or `[]`. -/
def Mussh.hostnames (m : Mussh) (host : String) : List String :=
  match alookup m.hostlist host with
  | some hs => hs.hostnames
  | none => []

/-- Model of `Mussh::configured_hostlists`. -/
def Mussh.configured_hostlists (m : Mussh) : List String :=
  asSet (m.hostlist.map Prod.fst)

/-- Model of `Mussh::configured_cmds`. -/
def Mussh.configured_cmds (m : Mussh) : List String :=
  asSet (m.cmd.map Prod.fst)

/-- Model of `Mussh::requested` (re-collects the requested commands as a set). -/
def requested (commands : List String) : List String :=
  asSet commands

/-- Model of `Mussh::expanded`: flat-map every selector token through the hostlist
table, absorbing duplicates. -/
def Mussh.expanded (m : Mussh) (hosts : List String) : List String :=
  asSet (hosts.flatMap m.hostnames)

/-- Model of `Mussh::unwanted`: the suffixes of the `!`-prefixed selector tokens. -/
def Mussh.unwanted (_m : Mussh) (hosts : List String) : List String :=
  asSet (hosts.filterMap unwanted_host)

/-- Model of `Mussh::host_tuple`. -/
def Mussh.host_tuple (m : Mussh) (hostname : String) : Option (String × Host) :=
  (alookup m.hosts hostname).map (fun host => (hostname, host))

/-- Model of `Mussh::cmd_tuple`. -/
def Mussh.cmd_tuple (m : Mussh) (cmd_name : String) : Option (String × Command) :=
  (alookup m.cmd cmd_name).map (fun c => (cmd_name, c))

/-- Model of `Mussh::actual_hosts`: expand, drop unwanted, intersect with the
hostlist keys (left-operand order), then dereference through the hosts
table. -/
def Mussh.actual_hosts (m : Mussh) (hosts : List String) : List (String × Host) :=
  (((m.expanded hosts).filter (fun x => x ∉ m.unwanted hosts)).filter
      (fun x => x ∈ m.configured_hostlists)).filterMap m.host_tuple

/-- Model of `Mussh::actual_cmds`: requested commands intersected with the command
table keys (requested order), dereferenced through the command table. -/
def Mussh.actual_cmds (m : Mussh) (commands : List String) : List (String × Command) :=
  ((requested commands).filter (fun c => c ∈ m.configured_cmds)).filterMap m.cmd_tuple

/-- The alias scan inside `Mussh::cmd_map_tuple` (and `ssh::cmd_tuple`):
`c` starts as the configured literal; the loop breaks only when a matching
alias entry's target command resolves in the global command table. -/
def aliasScan (m : Mussh) (cmd_name : String) : List Alias → String → String
  | [], c => c
  | a :: rest, c =>
    if a.aliasfor = cmd_name then
      match alookup m.cmd a.command with
      | some ic => ic.command
      | none => aliasScan m cmd_name rest c
    else aliasScan m cmd_name rest c

/-- Model of `Mussh::cmd_map_tuple` (identical to `ssh::cmd_tuple`). -/
def Mussh.cmd_map_tuple (m : Mussh) (command : Command) (cmd_name : String)
    (host : Host) : String × String :=
  (cmd_name,
    match host.alias_ with
    | some alias_vec => aliasScan m cmd_name alias_vec command.command
    | none => command.command)

/-- Model of `Mussh::actual_cmd_map` (identical to `ssh::actual_cmd_map`). -/
def Mussh.actual_cmd_map (m : Mussh) (target_host : Host)
    (expected_cmds : List (String × Command)) : List (String × String) :=
  expected_cmds.map (fun p => m.cmd_map_tuple p.2 p.1 target_host)

/-- Model of `utils::MultiplexMapType`. -/
abbrev MultiplexMapType :=
  List (String × (Host × List (CmdType × List (String × String))))

/-- One iteration of either loop of `Mussh::to_host_map`:
`hosts_map.entry(hostname).or_insert((host, new map))` followed by
inserting the `Cmd` and `SyncCmd` maps computed against this host. -/
def planStep (m : Mussh) (ac asc : List (String × Command))
    (mp : MultiplexMapType) (p : String × Host) : MultiplexMapType :=
  (if p.1 ∈ mp.map Prod.fst then mp else mp ++ [(p.1, (p.2, []))]).map (fun q =>
    if q.1 = p.1 then
      (q.1, (q.2.1,
        imInsert CmdType.SyncCmd (m.actual_cmd_map p.2 asc)
          (imInsert CmdType.Cmd (m.actual_cmd_map p.2 ac) q.2.2)))
    else q)

/-- Model of `Mussh::to_host_map`: the first loop runs over the resolved primary
hosts, the second over the resolved sync hosts. -/
def Mussh.to_host_map (m : Mussh) (hc : HostsCmds) : MultiplexMapType :=
  let ah := m.actual_hosts hc.hosts
  let ac := m.actual_cmds hc.cmds
  let ash := m.actual_hosts hc.sync_hosts
  let asc := m.actual_cmds hc.sync_cmds
  ash.foldl (planStep m ac asc) (ah.foldl (planStep m ac asc) [])

/-! ### The execution engine (`ssh.rs`) -/

/-- Model of `ssh::Multiplex`: the four selector sets of a run. -/
structure Multiplex where
  hosts : List String
  sync_hosts : List String
  commands : List String
  sync_commands : List String
deriving DecidableEq

/-- The selector picked by `Multiplex::expanded` / `unwanted` /
`actual_hosts` for a `HostType`. -/
def Multiplex.selHosts (r : Multiplex) : HostType → List String
  | HostType.Host => r.hosts
  | HostType.SyncHost => r.sync_hosts

/-- Model of `ssh::Multiplex::actual_hosts`; its body duplicates
`Mussh::actual_hosts` verbatim (same expanded / unwanted / intersection /
host_tuple pipeline). -/
def Multiplex.actual_hosts (r : Multiplex) (m : Mussh) (ht : HostType) :
    List (String × Host) :=
  m.actual_hosts (r.selHosts ht)

/-- Model of `ssh::Multiplex::actual_cmds`; duplicates `Mussh::actual_cmds`. -/
def Multiplex.actual_cmds (r : Multiplex) (m : Mussh) : CmdType → List (String × Command)
  | CmdType.Cmd => m.actual_cmds r.commands
  | CmdType.SyncCmd => m.actual_cmds r.sync_commands

/-- The `hosts_map` built at the start of `ssh::Multiplex::multiplex`:
entry/or_insert over the primary host keys, then over the sync host keys,
each time inserting the `Cmd` and `SyncCmd` command tables. -/
def Multiplex.hostsMap (r : Multiplex) (m : Mussh) :
    List (String × List (CmdType × List (String × Command))) :=
  let cmds := r.actual_cmds m CmdType.Cmd
  let sync_cmds := r.actual_cmds m CmdType.SyncCmd
  let step := fun (mp : List (String × List (CmdType × List (String × Command))))
      (hostname : String) =>
    let mp1 := if hostname ∈ mp.map Prod.fst then mp else mp ++ [(hostname, [])]
    mp1.map (fun q =>
      if q.1 = hostname then
        (q.1, imInsert CmdType.SyncCmd sync_cmds (imInsert CmdType.Cmd cmds q.2))
      else q)
  ((r.actual_hosts m HostType.SyncHost).map Prod.fst).foldl step
    (((r.actual_hosts m HostType.Host).map Prod.fst).foldl step [])

/-- The spawn loop of `ssh::Multiplex::multiplex`: a worker is spawned for
a `hosts_map` entry only when the hostname is found in the primary
`actual_hosts` map (`if let Some(host) = hosts.get(hostname)`); the worker
is marked as a sync worker when the hostname is a key of the sync
`actual_hosts` map. -/
def Multiplex.spawnList (r : Multiplex) (m : Mussh) : List (String × Bool) :=
  ((r.hostsMap m).map Prod.fst).filterMap (fun hostname =>
    (alookup (r.actual_hosts m HostType.Host) hostname).map
      (fun _ => (hostname, (alookup (r.actual_hosts m HostType.SyncHost) hostname).isSome)))

/-- Model of `let count = hosts_map.len()`: the number of result batches the
aggregation loop of `ssh::Multiplex::multiplex` receives. -/
def Multiplex.recvCount (r : Multiplex) (m : Mussh) : Nat :=
  (r.hostsMap m).length

/-! ### Interleaving model of the spawn loop and the worker protocol

The spawn loop of `ssh::Multiplex::multiplex` and the worker closures are
modelled as a small-step machine.  The main thread processes the spawn
list one host at a time: for a sync host it first increments the
wait-group counter (`wg.add(1)`), then spawns the worker — exactly the
order of the Rust loop body.  A worker executes its visible actions in
program order: PRE commands, then for a sync worker the SYNC commands
followed by `wg.done()`, and for a non-sync worker `wg.wait()` (enabled
only when the counter is zero) followed by the SYNC commands; every worker
ends by sending its batch. -/

/-- The visible actions of one worker thread. -/
inductive WAct
  | preExec
  | waitBarrier
  | syncExec
  | doneBarrier
  | send
deriving DecidableEq

/-- The program of a worker, from the thread closure in
`ssh::Multiplex::multiplex`. -/
def workerProg (sync : Bool) : List WAct :=
  if sync then [WAct.preExec, WAct.syncExec, WAct.doneBarrier, WAct.send]
  else [WAct.preExec, WAct.waitBarrier, WAct.syncExec, WAct.send]

/-- Engine state: the wait-group counter, the part of the spawn loop not
yet executed, and the spawned workers with their remaining actions. -/
structure EngineState where
  counter : Nat
  pending : List (String × Bool)
  workers : List (String × Bool × List WAct)
deriving DecidableEq

/-- An observable event of the engine. -/
inductive EngineEvent
  | spawned (h : String)
  | acted (h : String) (a : WAct)
deriving DecidableEq

/-- A scheduling choice: one main-thread loop iteration, or one step of
the `i`-th spawned worker. -/
inductive EngineChoice
  | mainStep
  | workerStep (i : Nat)
deriving DecidableEq

/-- One step of the engine; `none` when the chosen thread cannot act
(nothing left, or `wait` on a non-zero counter). -/
def engineStep (s : EngineState) : EngineChoice → Option (EngineState × EngineEvent)
  | EngineChoice.mainStep =>
    match s.pending with
    | [] => none
    | (h, sy) :: rest =>
      some ({ counter := s.counter + (if sy then 1 else 0),
              pending := rest,
              workers := s.workers ++ [(h, sy, workerProg sy)] },
            EngineEvent.spawned h)
  | EngineChoice.workerStep i =>
    match s.workers[i]? with
    | none => none
    | some (h, sy, prog) =>
      match prog with
      | [] => none
      | a :: rest =>
        match a with
        | WAct.waitBarrier =>
          if s.counter = 0 then
            some ({ s with workers := s.workers.set i (h, sy, rest) },
                  EngineEvent.acted h a)
          else none
        | WAct.doneBarrier =>
          some ({ s with counter := s.counter - 1
                         workers := s.workers.set i (h, sy, rest) },
                EngineEvent.acted h a)
        | _ =>
          some ({ s with workers := s.workers.set i (h, sy, rest) },
                EngineEvent.acted h a)

/-- Run the engine under a schedule, collecting the event trace; `none`
when some scheduled step is not enabled. -/
def engineRun (s : EngineState) : List EngineChoice → Option (EngineState × List EngineEvent)
  | [] => some (s, [])
  | c :: cs =>
    match engineStep s c with
    | none => none
    | some (s', e) =>
      match engineRun s' cs with
      | none => none
      | some (s'', es) => some (s'', e :: es)

/-- The initial engine state of `ssh::Multiplex::multiplex`: the
wait-group counter is zero (`WaitGroup::new()`) and no worker has been
spawned yet. -/
def initialEngine (r : Multiplex) (m : Mussh) : EngineState :=
  { counter := 0, pending := r.spawnList m, workers := [] }

/-! ### Error model (`error.rs`) and the transport adapter -/

/-- Model of `error::MusshErrKind` (payloads of the variants wrapping external
error types are modelled as their display strings; `Io` is rendered as
`IoError`). -/
inductive MusshErrKind
  | Clap (msg : String)
  | IoError (msg : String)
  | NonZero (msg : String)
  | ShellNotFound
  | Ssh2 (msg : String)
  | SshAuthentication
  | SshExec (msg : String)
  | SshSession
  | Spawn
  | Str (msg : String)
  | TomlDe (msg : String)
  | TomlSer (msg : String)
deriving DecidableEq

/-- Metric produced for a successfully executed command. -/
structure Metric where
  hostname : String
  cmdName : String
  duration : Nat
  timestamp : Nat
deriving DecidableEq

/-- Outcome of starting the local child process `SHELL -c cmd`. -/
inductive SpawnResult
  | spawnFailed
  | exited (success : Bool) (msg : String)
deriving DecidableEq

/-- Modelled from the spec: `execute_on_localhost` is absent from the
sources (`ssh::execute_on_host` is a stub whose body is commented out), so
the local path is taken from spec §4.F: read `SHELL` (fail with
`ShellNotFound` when unset), start `SHELL -c cmd` (fail with `Spawn` when
the child cannot start), then return a `Metric` on a successful exit
status and `NonZero(message)` otherwise.  The environment and the child
behaviour are passed in as `shell` and `spawnChild`. -/
def execute_on_localhost (shell : Option String) (spawnChild : String → String → SpawnResult)
    (host : Host) (cmd_name cmd : String) (elapsed timestamp : Nat) :
    Except MusshErrKind Metric :=
  match shell with
  | none => Except.error MusshErrKind.ShellNotFound
  | some sh =>
    match spawnChild sh cmd with
    | SpawnResult.spawnFailed => Except.error MusshErrKind.Spawn
    | SpawnResult.exited true _ =>
        Except.ok { hostname := host.hostname, cmdName := cmd_name,
                    duration := elapsed, timestamp := timestamp }
    | SpawnResult.exited false msg => Except.error (MusshErrKind.NonZero msg)

/-- Modelled from the spec: `execute_on_host` dispatches on
`host.hostname == "localhost"` between the local path and the remote SSH
path; the remote path is irrelevant to the local-path contract and is
passed in as an opaque result. -/
def execute_on_host (shell : Option String) (spawnChild : String → String → SpawnResult)
    (remote : Except MusshErrKind Metric) (host : Host) (cmd_name cmd : String)
    (elapsed timestamp : Nat) : Except MusshErrKind Metric :=
  if host.hostname = "localhost" then
    execute_on_localhost shell spawnChild host cmd_name cmd elapsed timestamp
  else remote

/-! ### Duration formatter (`utils.rs`) -/

/-- Zero-padding to a minimum width, the model of `format!("{:0w}", n)`. -/
def padZ (w : Nat) (n : Nat) : String :=
  let s := toString n
  if s.length < w then String.mk (List.replicate (w - s.length) '0') ++ s else s

/-- Model of `utils::convert_duration`.  A `Duration` is modelled by its whole
seconds `secs` (`as_secs`) and its sub-second millisecond remainder
`millis` (`subsec_millis`); `as_millis` is `secs * 1000 + millis`. -/
def convert_duration (secs millis : Nat) : String :=
  if secs < 1 then "00:00:00." ++ padZ 3 (secs * 1000 + millis)
  else if secs < 60 then "00:00:" ++ padZ 2 secs ++ "." ++ padZ 3 millis
  else if secs < 3600 then
    "00:" ++ padZ 2 (secs / 60) ++ ":" ++ padZ 2 (secs % 60) ++ "." ++ padZ 3 millis
  else if secs < 86400 then
    toString (secs / 60 / 60) ++ ":" ++ padZ 2 (secs / 60 % 60) ++ ":" ++
      padZ 2 (secs % 60) ++ "." ++ padZ 3 millis
  else toString secs ++ "s"

/-! ### Spec-side definitions

These follow the wording of the specification / claims (not the source);
each is compared against the corresponding source-side definition. -/

/-- Claim C1's alias scan as stated: the scan stops at the first entry
whose `aliasfor` equals the requested name, whether or not that entry's
target command is configured; the original literal is kept when the
lookup fails. -/
def aliasScanFirstMatch (m : Mussh) (cmd_name : String) (alias_vec : List Alias)
    (s : String) : String :=
  match alias_vec.find? (fun a => a.aliasfor = cmd_name) with
  | some a =>
    match alookup m.cmd a.command with
    | some ic => ic.command
    | none => s
  | none => s

/-- Claim C1's per-(host, command) emission as stated. -/
def cmd_map_tuple_firstMatch (m : Mussh) (command : Command) (cmd_name : String)
    (host : Host) : String × String :=
  (cmd_name,
    match host.alias_ with
    | some alias_vec => aliasScanFirstMatch m cmd_name alias_vec command.command
    | none => command.command)

/-- The amended C1 alias resolution: the scan skips entries whose target
command is not configured and substitutes at the first entry whose
`aliasfor` matches and whose target is configured; the original literal is
kept when no such entry exists. -/
def aliasResolveConfigured (m : Mussh) (cmd_name : String) :
    List Alias → String → String
  | [], s => s
  | a :: rest, s =>
    if a.aliasfor = cmd_name ∧ (alookup m.cmd a.command).isSome then
      ((alookup m.cmd a.command).map Command.command).getD s
    else aliasResolveConfigured m cmd_name rest s

/-- Claim C2's host selector resolution as stated: step (1) expands only
the non-negative tokens through the hostlist table in order (duplicates
absorbed first-wins), step (2) removes every name whose `!`-prefixed form
appears among the tokens, step (3) intersects with the hostlist table's
keys preserving the left operand's order, step (4) maps the survivors
through the hosts table, dropping names with no host record. -/
def actual_hosts_specC2 (m : Mussh) (tokens : List String) : List (String × Host) :=
  let working := tokens.foldl
    (fun acc t => if (unwanted_host t).isSome then acc
                  else (m.hostnames t).foldl insertIdem acc) []
  ((working.filter (fun x => ("!" ++ x) ∉ tokens)).filter
      (fun x => x ∈ m.hostlist.map Prod.fst)).filterMap
    (fun h => (alookup m.hosts h).map (fun hh => (h, hh)))

/-- The amended C2 resolution: identical, except that step (1) expands
every token (negative tokens included) through the hostlist table. -/
def actual_hosts_amendedC2 (m : Mussh) (tokens : List String) : List (String × Host) :=
  let working := tokens.foldl (fun acc t => (m.hostnames t).foldl insertIdem acc) []
  ((working.filter (fun x => ("!" ++ x) ∉ tokens)).filter
      (fun x => x ∈ m.hostlist.map Prod.fst)).filterMap
    (fun h => (alookup m.hosts h).map (fun hh => (h, hh)))

/-- Claim C9's duration format as stated, with hours `secs / 3600`,
in-hour minutes `secs / 60 % 60` and in-minute seconds `secs % 60`, and
the sub-second millisecond remainder in the first branch. -/
def convert_duration_spec (secs millis : Nat) : String :=
  if secs < 1 then "00:00:00." ++ padZ 3 millis
  else if secs < 60 then "00:00:" ++ padZ 2 secs ++ "." ++ padZ 3 millis
  else if secs < 3600 then
    "00:" ++ padZ 2 (secs / 60) ++ ":" ++ padZ 2 (secs % 60) ++ "." ++ padZ 3 millis
  else if secs < 86400 then
    toString (secs / 3600) ++ ":" ++ padZ 2 (secs / 60 % 60) ++ ":" ++
      padZ 2 (secs % 60) ++ "." ++ padZ 3 millis
  else toString secs ++ "s"

/-! ### Concrete configurations used in counterexamples and witnesses -/

/-- A host record with no alias list. -/
def hostPlain (hn : String) : Host :=
  { hostname := hn, pem := none, port := none, username := "jozias", alias_ := none }

/-- The m1 host of the C1 counterexample: its alias list has first an
entry for `ls` whose target `missing` is not configured, then an entry for
`ls` whose target `bar` is configured. -/
def hostM1Twice : Host :=
  { hostname := "10.0.0.3", pem := none, port := none, username := "jozias",
    alias_ := some [{ command := "missing", aliasfor := "ls" },
                    { command := "bar", aliasfor := "ls" }] }

/-- The configuration of the C1 counterexample. -/
def cfgTwice : Mussh :=
  { hostlist := [("m1", { hostnames := ["m1"] })],
    hosts := [("m1", hostM1Twice)],
    cmd := [("ls", { command := "ls -al" }), ("bar", { command := "bar" })] }

/-- A configuration whose hostlist table has a key literally beginning
with `'!'`: the hostlist `!a` expands to the configured host `b`. -/
def bangMussh : Mussh :=
  { hostlist := [("!a", { hostnames := ["b"] }), ("b", { hostnames := [] })],
    hosts := [("b", hostPlain "10.0.0.9")],
    cmd := [] }

/-- Two plain hosts `m1`, `m2`, each with its own singleton hostlist. -/
def cfgPair : Mussh :=
  { hostlist := [("m1", { hostnames := ["m1"] }), ("m2", { hostnames := ["m2"] })],
    hosts := [("m1", hostPlain "10.0.0.1"), ("m2", hostPlain "10.0.0.2")],
    cmd := [] }

/-- The C3 failing request: `m1` as primary host, `m2` as sync-only host. -/
def multSyncOnly : Multiplex :=
  { hosts := ["m1"], sync_hosts := ["m2"], commands := [], sync_commands := [] }

/-- The C4 failing request: `m1` and `m2` primary, `m2` also a sync host. -/
def multRace : Multiplex :=
  { hosts := ["m1", "m2"], sync_hosts := ["m2"], commands := [], sync_commands := [] }

/-- The C4 schedule: the main thread spawns `m1`'s (non-sync) worker, that
worker runs to completion — including its SYNC phase — before the main
thread performs `wg.add(1)` for `m2` and spawns `m2`'s sync worker. -/
def choicesRace : List EngineChoice :=
  [EngineChoice.mainStep,
   EngineChoice.workerStep 0, EngineChoice.workerStep 0,
   EngineChoice.workerStep 0, EngineChoice.workerStep 0,
   EngineChoice.mainStep,
   EngineChoice.workerStep 1, EngineChoice.workerStep 1,
   EngineChoice.workerStep 1, EngineChoice.workerStep 1]

/-- The event trace produced by `choicesRace`. -/
def eventsRace : List EngineEvent :=
  [EngineEvent.spawned "m1",
   EngineEvent.acted "m1" WAct.preExec,
   EngineEvent.acted "m1" WAct.waitBarrier,
   EngineEvent.acted "m1" WAct.syncExec,
   EngineEvent.acted "m1" WAct.send,
   EngineEvent.spawned "m2",
   EngineEvent.acted "m2" WAct.preExec,
   EngineEvent.acted "m2" WAct.syncExec,
   EngineEvent.acted "m2" WAct.doneBarrier,
   EngineEvent.acted "m2" WAct.send]

example : unwanted_host "!a" = some "a" := by decide
example : unwanted_host "m1" = none := by decide
example : Mussh.actual_hosts bangMussh ["!a"] = [("b", hostPlain "10.0.0.9")] := by decide
example : actual_hosts_specC2 bangMussh ["!a"] = [] := by decide
example : Mussh.cmd_map_tuple cfgTwice { command := "ls -al" } "ls" hostM1Twice
    = ("ls", "bar") := by decide
example : cmd_map_tuple_firstMatch cfgTwice { command := "ls -al" } "ls" hostM1Twice
    = ("ls", "ls -al") := by decide
example : Mussh.to_host_map cfgTwice { hosts := ["m1"], sync_hosts := [], cmds := ["ls"], sync_cmds := [] }
    = [("m1", (hostM1Twice, [(CmdType.Cmd, [("ls", "bar")]), (CmdType.SyncCmd, [])]))] := by rfl
example : (multSyncOnly.hostsMap cfgPair).map Prod.fst = ["m1", "m2"] := by decide
example : multSyncOnly.spawnList cfgPair = [("m1", false)] := by decide
example : multSyncOnly.recvCount cfgPair = 2 := by decide
example : multRace.spawnList cfgPair = [("m1", false), ("m2", true)] := by decide
example : (engineRun (initialEngine multRace cfgPair) choicesRace).map Prod.snd
    = some eventsRace := by decide
example : convert_duration 3725 42 = "1:02:05.042" := by decide
example : convert_duration 0 7 = "00:00:00.007" := by decide
example : convert_duration 90000 1 = "90000s" := by decide

/-! ### Lemmas about the ordered-set primitives -/

theorem mem_insertIdem {α : Type} [DecidableEq α] (acc : List α) (x y : α) :
    y ∈ insertIdem acc x ↔ y ∈ acc ∨ y = x := by
  by_cases h : x ∈ acc
  · rw [insertIdem, if_pos h]
    constructor
    · exact Or.inl
    · rintro (hy | rfl)
      · exact hy
      · exact h
  · rw [insertIdem, if_neg h]
    simp

theorem mem_foldl_insertIdem {α : Type} [DecidableEq α] (l : List α) (acc : List α) (y : α) :
    y ∈ l.foldl insertIdem acc ↔ y ∈ acc ∨ y ∈ l := by
  induction l generalizing acc with
  | nil => simp
  | cons x l ih =>
    rw [List.foldl_cons, ih, mem_insertIdem]
    simp [or_assoc]

theorem mem_asSet {α : Type} [DecidableEq α] (l : List α) (y : α) :
    y ∈ asSet l ↔ y ∈ l := by
  rw [asSet, mem_foldl_insertIdem]
  simp

theorem nodup_insertIdem {α : Type} [DecidableEq α] (acc : List α) (x : α)
    (h : acc.Nodup) : (insertIdem acc x).Nodup := by
  by_cases hx : x ∈ acc
  · rwa [insertIdem, if_pos hx]
  · rw [insertIdem, if_neg hx]
    simpa [List.nodup_append, h] using hx

theorem nodup_foldl_insertIdem {α : Type} [DecidableEq α] (l acc : List α)
    (h : acc.Nodup) : (l.foldl insertIdem acc).Nodup := by
  induction l generalizing acc with
  | nil => simpa
  | cons x l ih => exact ih _ (nodup_insertIdem _ _ h)

theorem nodup_asSet {α : Type} [DecidableEq α] (l : List α) : (asSet l).Nodup :=
  nodup_foldl_insertIdem l [] List.nodup_nil

theorem foldl_insertIdem_of_nodup {α : Type} [DecidableEq α] (l : List α) :
    ∀ acc : List α, l.Nodup → l.foldl insertIdem acc = acc ++ l.filter (fun x => x ∉ acc) := by
  induction l with
  | nil => intro acc _; simp
  | cons x l ih =>
    intro acc h
    rcases List.nodup_cons.mp h with ⟨hx, hl⟩
    by_cases hacc : x ∈ acc
    · rw [List.foldl_cons, insertIdem, if_pos hacc, ih _ hl, List.filter_cons]
      simp [hacc]
    · rw [List.foldl_cons, insertIdem, if_neg hacc, ih _ hl, List.filter_cons]
      have hpx : decide (x ∉ acc) = true := by simpa using hacc
      rw [if_pos hpx]
      have hstep : List.filter (fun a => decide (a ∉ acc ++ [x])) l
          = List.filter (fun a => decide (a ∉ acc)) l := by
        apply List.filter_congr
        intro a ha
        have hne : a ≠ x := fun e => hx (e ▸ ha)
        simp [List.mem_append, hne]
      rw [hstep, List.append_assoc]
      rfl

theorem asSet_append_nodup {α : Type} [DecidableEq α] (l₁ l₂ : List α)
    (h₁ : l₁.Nodup) (h₂ : l₂.Nodup) :
    asSet (l₁ ++ l₂) = l₁ ++ l₂.filter (fun x => x ∉ l₁) := by
  rw [asSet, List.foldl_append, foldl_insertIdem_of_nodup l₁ [] h₁,
    foldl_insertIdem_of_nodup l₂ _ h₂]
  have : l₁.filter (fun x => x ∉ ([] : List α)) = l₁ := by
    apply List.filter_eq_self.mpr
    intro a _
    simp
  rw [this]
  simp

/-! ### Lemmas about association-list lookup -/

theorem alookup_isSome_of_mem {α β : Type} [DecidableEq α] (l : List (α × β)) (a : α)
    (h : a ∈ l.map Prod.fst) : (alookup l a).isSome := by
  induction l with
  | nil => simp at h
  | cons p l ih =>
    obtain ⟨k, v⟩ := p
    by_cases hk : k = a
    · simp [alookup, hk]
    · rw [alookup, if_neg hk]
      apply ih
      rcases List.mem_cons.mp h with h' | h'
      · exact absurd h'.symm hk
      · exact h'

theorem mem_keys_of_alookup {α β : Type} [DecidableEq α] (l : List (α × β)) (a : α) (b : β)
    (h : alookup l a = some b) : a ∈ l.map Prod.fst := by
  induction l with
  | nil => simp [alookup] at h
  | cons p l ih =>
    obtain ⟨k, v⟩ := p
    by_cases hk : k = a
    · simp [hk]
    · rw [alookup, if_neg hk] at h
      simpa using Or.inr (ih h)

/-! ### Keys of the resolved host and command maps -/

theorem map_fst_filterMap_host_tuple (m : Mussh) (l : List String) :
    (l.filterMap m.host_tuple).map Prod.fst
      = l.filter (fun h => (alookup m.hosts h).isSome) := by
  induction l with
  | nil => rfl
  | cons x l ih =>
    rw [List.filterMap_cons, List.filter_cons]
    cases hx : alookup m.hosts x with
    | none => simp [Mussh.host_tuple, hx, ih]
    | some hst => simp [Mussh.host_tuple, hx, ih]

theorem map_fst_filterMap_cmd_tuple (m : Mussh) (l : List String) :
    (l.filterMap m.cmd_tuple).map Prod.fst
      = l.filter (fun c => (alookup m.cmd c).isSome) := by
  induction l with
  | nil => rfl
  | cons x l ih =>
    rw [List.filterMap_cons, List.filter_cons]
    cases hx : alookup m.cmd x with
    | none => simp [Mussh.cmd_tuple, hx, ih]
    | some c => simp [Mussh.cmd_tuple, hx, ih]

theorem nodup_actual_hosts_keys (m : Mussh) (hs : List String) :
    ((m.actual_hosts hs).map Prod.fst).Nodup := by
  unfold Mussh.actual_hosts
  rw [map_fst_filterMap_host_tuple]
  exact (((nodup_asSet _).filter _).filter _).filter _

theorem nodup_actual_hosts (m : Mussh) (hs : List String) :
    (m.actual_hosts hs).Nodup :=
  (nodup_actual_hosts_keys m hs).of_map _

theorem actual_cmds_keys (m : Mussh) (cs : List String) :
    (m.actual_cmds cs).map Prod.fst
      = (requested cs).filter (fun c => c ∈ m.configured_cmds) := by
  unfold Mussh.actual_cmds
  rw [map_fst_filterMap_cmd_tuple]
  apply List.filter_eq_self.mpr
  intro a ha
  rw [List.mem_filter] at ha
  have h1 : a ∈ m.configured_cmds := by simpa using ha.2
  have h2 : a ∈ m.cmd.map Prod.fst := (mem_asSet _ _).mp h1
  simpa using alookup_isSome_of_mem _ _ h2

theorem actual_cmd_map_keys (m : Mussh) (h : Host) (l : List (String × Command)) :
    (m.actual_cmd_map h l).map Prod.fst = l.map Prod.fst := by
  induction l with
  | nil => rfl
  | cons p l ih => simp [Mussh.actual_cmd_map, Mussh.cmd_map_tuple] at *

/-! ### Keys and entries of the execution plan -/

theorem map_fst_map_of_fst_eq {α β : Type} (g : α × β → α × β)
    (hg : ∀ q, (g q).1 = q.1) (l : List (α × β)) :
    (l.map g).map Prod.fst = l.map Prod.fst := by
  induction l with
  | nil => rfl
  | cons q l ih => simp [hg, ih]

theorem planStep_keys (m : Mussh) (ac asc : List (String × Command))
    (mp : MultiplexMapType) (p : String × Host) :
    (planStep m ac asc mp p).map Prod.fst = insertIdem (mp.map Prod.fst) p.1 := by
  unfold planStep insertIdem
  by_cases h : p.1 ∈ mp.map Prod.fst
  · rw [if_pos h, if_pos h, map_fst_map_of_fst_eq]
    intro q
    split <;> rfl
  · rw [if_neg h, if_neg h, map_fst_map_of_fst_eq]
    · rw [List.map_append]
      rfl
    · intro q
      split <;> rfl

theorem foldl_planStep_keys (m : Mussh) (ac asc : List (String × Command))
    (l : List (String × Host)) :
    ∀ mp : MultiplexMapType,
      (l.foldl (planStep m ac asc) mp).map Prod.fst
        = (l.map Prod.fst).foldl insertIdem (mp.map Prod.fst) := by
  induction l with
  | nil => intro mp; rfl
  | cons p l ih =>
    intro mp
    rw [List.foldl_cons, List.map_cons, List.foldl_cons, ih, planStep_keys]

theorem to_host_map_keys (m : Mussh) (hc : HostsCmds) :
    (m.to_host_map hc).map Prod.fst
      = asSet ((m.actual_hosts hc.hosts).map Prod.fst
          ++ (m.actual_hosts hc.sync_hosts).map Prod.fst) := by
  unfold Mussh.to_host_map
  rw [foldl_planStep_keys, foldl_planStep_keys]
  rw [asSet, List.foldl_append]
  rfl

theorem imInsert_Cmd_pair (v a b : List (String × String)) :
    imInsert CmdType.Cmd v [(CmdType.Cmd, a), (CmdType.SyncCmd, b)]
      = [(CmdType.Cmd, v), (CmdType.SyncCmd, b)] := by
  simp [imInsert]

theorem imInsert_Sync_pair (w v b : List (String × String)) :
    imInsert CmdType.SyncCmd w [(CmdType.Cmd, v), (CmdType.SyncCmd, b)]
      = [(CmdType.Cmd, v), (CmdType.SyncCmd, w)] := by
  simp [imInsert]

theorem imInsert_Cmd_nil (v : List (String × String)) :
    imInsert CmdType.Cmd v [] = [(CmdType.Cmd, v)] := by
  simp [imInsert]

theorem imInsert_Sync_single (w v : List (String × String)) :
    imInsert CmdType.SyncCmd w [(CmdType.Cmd, v)]
      = [(CmdType.Cmd, v), (CmdType.SyncCmd, w)] := by
  simp [imInsert]

/-- Shape of every command map stored in the plan: a `Cmd` entry followed
by a `SyncCmd` entry, both alias-mapped against some host. -/
def PlanEntryForm (m : Mussh) (ac asc : List (String × Command))
    (cm : List (CmdType × List (String × String))) : Prop :=
  ∃ h', cm = [(CmdType.Cmd, m.actual_cmd_map h' ac),
              (CmdType.SyncCmd, m.actual_cmd_map h' asc)]

theorem planStep_entry_form (m : Mussh) (ac asc : List (String × Command))
    (mp : MultiplexMapType) (p : String × Host)
    (H : ∀ q ∈ mp, PlanEntryForm m ac asc q.2.2) :
    ∀ q ∈ planStep m ac asc mp p, PlanEntryForm m ac asc q.2.2 := by
  intro q' hq'
  unfold planStep at hq'
  rw [List.mem_map] at hq'
  obtain ⟨q, hq, rfl⟩ := hq'
  by_cases hmem : p.1 ∈ mp.map Prod.fst
  · rw [if_pos hmem] at hq
    by_cases hq1 : q.1 = p.1
    · rw [if_pos hq1]
      obtain ⟨h', hform⟩ := H q hq
      exact ⟨p.2, by simp only [hform, imInsert_Cmd_pair, imInsert_Sync_pair]⟩
    · rw [if_neg hq1]
      exact H q hq
  · rw [if_neg hmem] at hq
    rcases List.mem_append.mp hq with hq2 | hq2
    · by_cases hq1 : q.1 = p.1
      · rw [if_pos hq1]
        obtain ⟨h', hform⟩ := H q hq2
        exact ⟨p.2, by simp only [hform, imInsert_Cmd_pair, imInsert_Sync_pair]⟩
      · rw [if_neg hq1]
        exact H q hq2
    · rw [List.mem_singleton] at hq2
      subst hq2
      rw [if_pos rfl]
      exact ⟨p.2, by simp only [imInsert_Cmd_nil, imInsert_Sync_single]⟩

theorem foldl_planStep_entry_form (m : Mussh) (ac asc : List (String × Command))
    (l : List (String × Host)) :
    ∀ mp : MultiplexMapType, (∀ q ∈ mp, PlanEntryForm m ac asc q.2.2) →
      ∀ q ∈ l.foldl (planStep m ac asc) mp, PlanEntryForm m ac asc q.2.2 := by
  induction l with
  | nil => intro mp H; exact H
  | cons p l ih =>
    intro mp H
    exact ih _ (planStep_entry_form m ac asc mp p H)

theorem to_host_map_entry_form (m : Mussh) (hc : HostsCmds) :
    ∀ q ∈ m.to_host_map hc,
      PlanEntryForm m (m.actual_cmds hc.cmds) (m.actual_cmds hc.sync_cmds) q.2.2 := by
  intro q hq
  have hq' : q ∈ (m.actual_hosts hc.sync_hosts).foldl
      (planStep m (m.actual_cmds hc.cmds) (m.actual_cmds hc.sync_cmds))
      ((m.actual_hosts hc.hosts).foldl
        (planStep m (m.actual_cmds hc.cmds) (m.actual_cmds hc.sync_cmds)) []) := hq
  exact foldl_planStep_entry_form m _ _ _ _
    (foldl_planStep_entry_form m _ _ _ [] (fun q hq0 => by simp at hq0)) q hq'

/-- C5.  Plan key order: the plan's key sequence lists each resolved
hostname exactly once, in first-encounter order — all hosts of the
resolved primary selector in their resolved order, then the sync-only
hosts in their resolved order; a host in both selectors appears only once,
at its primary position. -/
theorem plan_key_order (m : Mussh) (hc : HostsCmds) :
    (m.to_host_map hc).map Prod.fst
      = (m.actual_hosts hc.hosts).map Prod.fst
        ++ ((m.actual_hosts hc.sync_hosts).map Prod.fst).filter
            (fun x => x ∉ (m.actual_hosts hc.hosts).map Prod.fst) ∧
    ((m.to_host_map hc).map Prod.fst).Nodup := by
  have hA := nodup_actual_hosts_keys m hc.hosts
  have hS := nodup_actual_hosts_keys m hc.sync_hosts
  rw [to_host_map_keys, asSet_append_nodup _ _ hA hS]
  refine ⟨rfl, List.Nodup.append hA (hS.filter _) ?_⟩
  intro a ha hfa
  rw [List.mem_filter] at hfa
  exact absurd ha (by simpa using hfa.2)

/-- C6.  Every plan entry's command map has both a `Cmd` (PRE) and a
`SyncCmd` (SYNC) key; the PRE map's key order is the requested commands
order filtered to configured command keys, and the SYNC map's key order is
the requested sync commands order filtered the same way. -/
theorem plan_cmd_maps (m : Mussh) (hc : HostsCmds) :
    ∀ q ∈ m.to_host_map hc,
      ∃ pre syn,
        alookup q.2.2 CmdType.Cmd = some pre ∧
        alookup q.2.2 CmdType.SyncCmd = some syn ∧
        pre.map Prod.fst = (requested hc.cmds).filter (fun c => c ∈ m.configured_cmds) ∧
        syn.map Prod.fst = (requested hc.sync_cmds).filter (fun c => c ∈ m.configured_cmds) := by
  intro q hq
  obtain ⟨h', hform⟩ := to_host_map_entry_form m hc q hq
  refine ⟨m.actual_cmd_map h' (m.actual_cmds hc.cmds),
          m.actual_cmd_map h' (m.actual_cmds hc.sync_cmds), ?_, ?_, ?_, ?_⟩
  · rw [hform]
    simp [alookup]
  · rw [hform]
    simp [alookup]
  · rw [actual_cmd_map_keys, actual_cmds_keys]
  · rw [actual_cmd_map_keys, actual_cmds_keys]

/-- Witness for C6 at a concrete plan entry. -/
theorem plan_cmd_maps_witness :
    (("m1", (hostM1Twice,
        [(CmdType.Cmd, [("ls", "bar")]),
         (CmdType.SyncCmd, ([] : List (String × String)))]))
      ∈ Mussh.to_host_map cfgTwice
          { hosts := ["m1"], sync_hosts := [], cmds := ["ls"], sync_cmds := [] }) ∧
    (∃ pre syn,
      alookup [(CmdType.Cmd, [("ls", "bar")]),
               (CmdType.SyncCmd, ([] : List (String × String)))] CmdType.Cmd = some pre ∧
      alookup [(CmdType.Cmd, [("ls", "bar")]),
               (CmdType.SyncCmd, ([] : List (String × String)))] CmdType.SyncCmd = some syn ∧
      pre.map Prod.fst = (requested ["ls"]).filter (fun c => c ∈ cfgTwice.configured_cmds) ∧
      syn.map Prod.fst = (requested []).filter (fun c => c ∈ cfgTwice.configured_cmds)) := by
  have hplan : Mussh.to_host_map cfgTwice
      { hosts := ["m1"], sync_hosts := [], cmds := ["ls"], sync_cmds := [] }
      = [("m1", (hostM1Twice,
          [(CmdType.Cmd, [("ls", "bar")]),
           (CmdType.SyncCmd, ([] : List (String × String)))]))] := rfl
  have hmem : ("m1", (hostM1Twice,
      [(CmdType.Cmd, [("ls", "bar")]),
       (CmdType.SyncCmd, ([] : List (String × String)))]))
      ∈ Mussh.to_host_map cfgTwice
          { hosts := ["m1"], sync_hosts := [], cmds := ["ls"], sync_cmds := [] } := by
    rw [hplan]
    exact List.mem_singleton.mpr rfl
  exact ⟨hmem, plan_cmd_maps cfgTwice _ _ hmem⟩

/-! ### Membership characterizations of the resolution pipeline -/

theorem mem_expanded (m : Mussh) (hs : List String) (x : String) :
    x ∈ m.expanded hs ↔ ∃ t ∈ hs, x ∈ m.hostnames t := by
  rw [Mussh.expanded, mem_asSet]
  exact List.mem_flatMap

theorem mem_unwanted (m : Mussh) (hs : List String) (x : String) :
    x ∈ m.unwanted hs ↔ ∃ t ∈ hs, unwanted_host t = some x := by
  rw [Mussh.unwanted, mem_asSet]
  exact List.mem_filterMap

theorem mem_actual_hosts (m : Mussh) (hs : List String) (p : String × Host) :
    p ∈ m.actual_hosts hs ↔
      p.1 ∈ m.expanded hs ∧ p.1 ∉ m.unwanted hs ∧ p.1 ∈ m.configured_hostlists ∧
        alookup m.hosts p.1 = some p.2 := by
  unfold Mussh.actual_hosts
  rw [List.mem_filterMap]
  constructor
  · rintro ⟨a, ha, hf⟩
    rw [List.mem_filter] at ha
    obtain ⟨ha1, ha2⟩ := ha
    rw [List.mem_filter] at ha1
    obtain ⟨ha0, ha1'⟩ := ha1
    rw [Mussh.host_tuple, Option.map_eq_some'] at hf
    obtain ⟨hst, hlk, hpe⟩ := hf
    subst hpe
    exact ⟨ha0, by simpa using ha1', by simpa using ha2, hlk⟩
  · rintro ⟨h1, h2, h3, h4⟩
    refine ⟨p.1, ?_, ?_⟩
    · rw [List.mem_filter, List.mem_filter]
      exact ⟨⟨h1, by simpa using h2⟩, by simpa using h3⟩
    · rw [Mussh.host_tuple, h4]
      rfl

/-- C7.  Negative selectors commute with reordering: the exclusion set
depends only on which tokens occur (same membership under any
permutation), and any reordering of the selector tokens preserving the
relative order of the non-negative tokens yields the same resolved
hostname→Host map (equal as an `IndexMap`, i.e. as a set of entries:
`IndexMap` equality in the source is order-insensitive). -/
theorem negative_selectors_commute (m : Mussh) (t1 t2 : List String)
    (hperm : t1.Perm t2)
    (_horder : t1.filter (fun t => (unwanted_host t).isNone)
            = t2.filter (fun t => (unwanted_host t).isNone)) :
    (∀ x, x ∈ m.unwanted t1 ↔ x ∈ m.unwanted t2) ∧
    (m.actual_hosts t1).Perm (m.actual_hosts t2) := by
  have hu : ∀ x, x ∈ m.unwanted t1 ↔ x ∈ m.unwanted t2 := by
    intro x
    rw [mem_unwanted, mem_unwanted]
    constructor
    · rintro ⟨t, ht, he⟩
      exact ⟨t, hperm.mem_iff.mp ht, he⟩
    · rintro ⟨t, ht, he⟩
      exact ⟨t, hperm.mem_iff.mpr ht, he⟩
  have he : ∀ x, x ∈ m.expanded t1 ↔ x ∈ m.expanded t2 := by
    intro x
    rw [mem_expanded, mem_expanded]
    constructor
    · rintro ⟨t, ht, hx⟩
      exact ⟨t, hperm.mem_iff.mp ht, hx⟩
    · rintro ⟨t, ht, hx⟩
      exact ⟨t, hperm.mem_iff.mpr ht, hx⟩
  refine ⟨hu, ?_⟩
  apply (List.perm_ext_iff_of_nodup (nodup_actual_hosts m t1) (nodup_actual_hosts m t2)).mpr
  intro p
  rw [mem_actual_hosts, mem_actual_hosts, he p.1]
  constructor
  · rintro ⟨h1, h2, h3, h4⟩
    exact ⟨h1, fun hc => h2 ((hu p.1).mpr hc), h3, h4⟩
  · rintro ⟨h1, h2, h3, h4⟩
    exact ⟨h1, fun hc => h2 ((hu p.1).mp hc), h3, h4⟩

/-- Witness for C7 at a concrete pair of token lists. -/
theorem negative_selectors_commute_witness :
    ((["m1", "!m2"].Perm ["!m2", "m1"]) ∧
      ["m1", "!m2"].filter (fun t => (unwanted_host t).isNone)
        = ["!m2", "m1"].filter (fun t => (unwanted_host t).isNone)) ∧
    ((∀ x, x ∈ cfgPair.unwanted ["m1", "!m2"] ↔ x ∈ cfgPair.unwanted ["!m2", "m1"]) ∧
      (cfgPair.actual_hosts ["m1", "!m2"]).Perm (cfgPair.actual_hosts ["!m2", "m1"])) :=
  ⟨⟨by decide, by decide⟩,
    negative_selectors_commute cfgPair ["m1", "!m2"] ["!m2", "m1"] (by decide) (by decide)⟩

/-! ### Expansion as a token-by-token fold, and the `!`-prefix lemma -/

theorem foldl_insertIdem_flatMap {α β : Type} [DecidableEq β] (f : α → List β)
    (l : List α) :
    ∀ acc : List β,
      (l.flatMap f).foldl insertIdem acc
        = l.foldl (fun a t => (f t).foldl insertIdem a) acc := by
  induction l with
  | nil => intro acc; rfl
  | cons x l ih =>
    intro acc
    rw [List.flatMap_cons, List.foldl_append, List.foldl_cons, ih]

theorem expanded_eq_foldl (m : Mussh) (tokens : List String) :
    m.expanded tokens
      = tokens.foldl (fun acc t => (m.hostnames t).foldl insertIdem acc) [] := by
  rw [Mussh.expanded, asSet]
  exact foldl_insertIdem_flatMap m.hostnames tokens []

theorem string_mk_eq_iff (a b : List Char) : (⟨a⟩ : String) = ⟨b⟩ ↔ a = b :=
  ⟨fun h => congrArg String.data h, fun h => h ▸ rfl⟩

theorem unwanted_host_eq_some_iff (t x : String) :
    unwanted_host t = some x ↔ t = "!" ++ x := by
  obtain ⟨cs⟩ := t
  obtain ⟨xs⟩ := x
  have happ : ("!" ++ (⟨xs⟩ : String)) = (⟨'!' :: xs⟩ : String) := rfl
  rw [happ, string_mk_eq_iff]
  cases cs with
  | nil =>
    rw [show unwanted_host ⟨[]⟩ = none from rfl]
    simp
  | cons c rest =>
    rw [show unwanted_host ⟨c :: rest⟩
        = if c = '!' then some (String.mk rest) else none from rfl]
    by_cases hc : c = '!'
    · subst hc
      rw [if_pos rfl]
      simp [string_mk_eq_iff]
    · rw [if_neg hc]
      simp [hc]

theorem mem_unwanted_iff_bang (m : Mussh) (tokens : List String) (x : String) :
    x ∈ m.unwanted tokens ↔ ("!" ++ x) ∈ tokens := by
  rw [mem_unwanted]
  constructor
  · rintro ⟨t, ht, he⟩
    rwa [(unwanted_host_eq_some_iff t x).mp he] at ht
  · intro h
    exact ⟨"!" ++ x, h, (unwanted_host_eq_some_iff _ _).mpr rfl⟩

/-- C2 counterexample: on a configuration whose hostlist table has the key
`!a` (expanding to the configured host `b`), the claim's resolution (which
expands only non-negative tokens) yields the empty map for the selector
`["!a"]`, while the source's `actual_hosts` yields the nonempty map
`[(b, …)]` — the claim as stated is false on this input. -/
theorem host_resolution_counterexample :
    actual_hosts_specC2 bangMussh ["!a"] = [] ∧
    Mussh.actual_hosts bangMussh ["!a"] = [("b", hostPlain "10.0.0.9")] :=
  ⟨by decide, by decide⟩

/-- C2 amended.  Host selector resolution, with step (1) amended to expand
every token (negative tokens included) through the hostlist table:
`actual_hosts` equals the pipeline of (1) first-wins expansion of all
tokens in order, (2) removal of every name whose `!`-prefixed form appears
among the tokens, (3) intersection with the hostlist table's keys
preserving the left operand's order, and (4) dereference through the hosts
table, dropping names with no host record. -/
theorem host_resolution_amended (m : Mussh) (tokens : List String) :
    m.actual_hosts tokens = actual_hosts_amendedC2 m tokens := by
  unfold Mussh.actual_hosts actual_hosts_amendedC2
  rw [← expanded_eq_foldl]
  have hf1 : (m.expanded tokens).filter (fun x => x ∉ m.unwanted tokens)
      = (m.expanded tokens).filter (fun x => ("!" ++ x) ∉ tokens) := by
    apply List.filter_congr
    intro a _
    exact decide_eq_decide.mpr (not_congr (mem_unwanted_iff_bang m tokens a))
  have hf2 : ((m.expanded tokens).filter (fun x => ("!" ++ x) ∉ tokens)).filter
        (fun x => x ∈ m.configured_hostlists)
      = ((m.expanded tokens).filter (fun x => ("!" ++ x) ∉ tokens)).filter
        (fun x => x ∈ m.hostlist.map Prod.fst) := by
    apply List.filter_congr
    intro a _
    exact decide_eq_decide.mpr (mem_asSet _ _)
  rw [hf1, hf2]
  rfl

/-- C10.  Expansion treats every selector token, `!`-prefixed or not, as
an ordinary hostlist lookup: the expanded working set is the first-wins
duplicate-absorbing concatenation, over all tokens in order, of each
token's hostlist entry; when no hostlist key begins with `'!'` a negative
token contributes no hostnames (removing it from the token list does not
change the expansion), but a hostlist whose key literally begins with
`'!'` is expanded by the matching negative token. -/
theorem expansion_all_tokens (m : Mussh) (tokens l₁ l₂ : List String) (t : String) :
    m.expanded tokens
      = tokens.foldl (fun acc tk => (m.hostnames tk).foldl insertIdem acc) [] ∧
    ((∀ k ∈ m.hostlist.map Prod.fst, unwanted_host k = none) →
      (unwanted_host t).isSome →
      m.expanded (l₁ ++ t :: l₂) = m.expanded (l₁ ++ l₂)) ∧
    Mussh.expanded bangMussh ["!a"] = ["b"] := by
  refine ⟨expanded_eq_foldl m tokens, ?_, by decide⟩
  intro hk ht
  unfold Mussh.expanded
  have hnil : m.hostnames t = [] := by
    unfold Mussh.hostnames
    cases hl : alookup m.hostlist t with
    | none => rfl
    | some hs =>
      exfalso
      have hmem := mem_keys_of_alookup _ _ _ hl
      rw [hk t hmem] at ht
      simp at ht
  rw [List.flatMap_append, List.flatMap_cons, List.flatMap_append, hnil]
  rfl

/-- Witness for C10's conditional conjunct at a concrete input. -/
theorem expansion_all_tokens_witness :
    ((∀ k ∈ cfgPair.hostlist.map Prod.fst, unwanted_host k = none) ∧
      (unwanted_host "!m2").isSome) ∧
    cfgPair.expanded (["m1"] ++ "!m2" :: ["m2"]) = cfgPair.expanded (["m1"] ++ ["m2"]) :=
  ⟨⟨by decide, by decide⟩,
    (expansion_all_tokens cfgPair [] ["m1"] ["m2"] "!m2").2.1 (by decide) (by decide)⟩

/-! ### Alias substitution (claim C1) -/

/-- C1 counterexample: on a host whose alias list has first an `ls` entry
with the unconfigured target `missing` and then an `ls` entry with the
configured target `bar`, the claim's first-match scan keeps the original
literal `"ls -al"` while the source scans past the failed lookup and emits
`"bar"`; the plan built for that host requesting `ls` indeed carries
`"bar"`. -/
theorem alias_scan_counterexample :
    cmd_map_tuple_firstMatch cfgTwice { command := "ls -al" } "ls" hostM1Twice
      = ("ls", "ls -al") ∧
    Mussh.cmd_map_tuple cfgTwice { command := "ls -al" } "ls" hostM1Twice
      = ("ls", "bar") ∧
    Mussh.to_host_map cfgTwice
        { hosts := ["m1"], sync_hosts := [], cmds := ["ls"], sync_cmds := [] }
      = [("m1", (hostM1Twice,
          [(CmdType.Cmd, [("ls", "bar")]),
           (CmdType.SyncCmd, ([] : List (String × String)))]))] :=
  ⟨by decide, by decide, by rfl⟩

theorem aliasScan_eq_resolveConfigured (m : Mussh) (n : String) (v : List Alias)
    (s : String) : aliasScan m n v s = aliasResolveConfigured m n v s := by
  induction v with
  | nil => rfl
  | cons a rest ih =>
    unfold aliasScan aliasResolveConfigured
    by_cases ha : a.aliasfor = n
    · cases hc : alookup m.cmd a.command with
      | some ic =>
        rw [if_pos ha, if_pos ⟨ha, rfl⟩]
        simp
      | none =>
        rw [if_pos ha, if_neg (by simp)]
        exact ih
    · rw [if_neg ha, if_neg (by simp [ha])]
      exact ih

/-- C1 amended.  Alias substitution per (host, command): with no alias
list the configured literal is emitted; otherwise the alias list is
scanned in order, entries whose `aliasfor` matches but whose target
command is not configured are skipped, and the first entry whose
`aliasfor` matches and whose target is configured substitutes that
target's literal; if no such entry exists the original literal is kept. -/
theorem alias_substitution_amended (m : Mussh) (c : Command) (n : String) (h : Host) :
    m.cmd_map_tuple c n h
      = (n, match h.alias_ with
            | some v => aliasResolveConfigured m n v c.command
            | none => c.command) := by
  unfold Mussh.cmd_map_tuple
  cases h.alias_ with
  | none => rfl
  | some v =>
    show (n, aliasScan m n v c.command) = (n, aliasResolveConfigured m n v c.command)
    rw [aliasScan_eq_resolveConfigured]

/-! ### The spawn-count bug (claim C3) -/

/-- C3 failing input: with primary selector `[m1]` and sync selector
`[m2]`, the plan (`hosts_map`) has the two keys `m1` and `m2`, but the
spawn loop spawns only one worker (`m2` is skipped by the
`hosts.get(hostname)` guard because it is not in the primary host map),
while the aggregation loop performs `count = hosts_map.len() = 2`
receives — so the second receive can never be matched by a send. -/
theorem spawn_count_mismatch :
    (multSyncOnly.hostsMap cfgPair).map Prod.fst = ["m1", "m2"] ∧
    multSyncOnly.spawnList cfgPair = [("m1", false)] ∧
    (multSyncOnly.spawnList cfgPair).length = 1 ∧
    multSyncOnly.recvCount cfgPair = 2 := by
  refine ⟨by decide, by decide, by decide, by decide⟩

/-! ### The barrier race (claim C4) -/

/-- C4 failing schedule: with `m1` (non-sync) and `m2` (sync) both
planned, the engine admits a valid interleaving in which `m1`'s worker is
spawned, passes `wg.wait()` (the counter is still zero because the main
thread has not yet executed `wg.add(1)` for `m2`), and executes its whole
SYNC phase before the sync worker for `m2` is even spawned — the first
five events contain `m1`'s SYNC execution and no SYNC activity of `m2`. -/
theorem barrier_race_trace :
    multRace.spawnList cfgPair = [("m1", false), ("m2", true)] ∧
    (engineRun (initialEngine multRace cfgPair) choicesRace).map Prod.snd
      = some eventsRace ∧
    EngineEvent.acted "m1" WAct.syncExec ∈ eventsRace.take 5 ∧
    EngineEvent.acted "m2" WAct.syncExec ∉ eventsRace.take 5 ∧
    EngineEvent.acted "m2" WAct.doneBarrier ∉ eventsRace.take 5 := by
  refine ⟨by decide, by decide, by decide, by decide, by decide⟩

/-! ### Local-path error contract (claim C8) -/

/-- C8.  Local-path error contract of the transport: a call of
`execute_on_host` on a host whose hostname is `"localhost"` fails with
`ShellNotFound` when `SHELL` is unset, fails with `NonZero(message)` when
the child exits with a non-zero status, and returns a `Metric` only when
the child exits successfully. -/
theorem localhost_error_contract (shell : Option String)
    (spawnChild : String → String → SpawnResult) (remote : Except MusshErrKind Metric)
    (host : Host) (cmd_name cmd : String) (elapsed timestamp : Nat)
    (hloc : host.hostname = "localhost") :
    (shell = none →
      execute_on_host shell spawnChild remote host cmd_name cmd elapsed timestamp
        = Except.error MusshErrKind.ShellNotFound) ∧
    (∀ sh msg, shell = some sh → spawnChild sh cmd = SpawnResult.exited false msg →
      execute_on_host shell spawnChild remote host cmd_name cmd elapsed timestamp
        = Except.error (MusshErrKind.NonZero msg)) ∧
    (∀ metric, execute_on_host shell spawnChild remote host cmd_name cmd elapsed timestamp
        = Except.ok metric →
      ∃ sh msg, shell = some sh ∧ spawnChild sh cmd = SpawnResult.exited true msg) := by
  refine ⟨?_, ?_, ?_⟩
  · rintro rfl
    simp [execute_on_host, execute_on_localhost, hloc]
  · rintro sh msg rfl hsp
    simp [execute_on_host, execute_on_localhost, hloc, hsp]
  · intro metric hok
    rw [execute_on_host, if_pos hloc] at hok
    cases shell with
    | none => simp [execute_on_localhost] at hok
    | some sh =>
      cases hsp : spawnChild sh cmd with
      | spawnFailed => simp [execute_on_localhost, hsp] at hok
      | exited success msg =>
        cases success with
        | false => simp [execute_on_localhost, hsp] at hok
        | true => exact ⟨sh, msg, rfl, hsp⟩

/-- Witness for C8 at a concrete localhost call with `SHELL` unset. -/
theorem localhost_error_contract_witness :
    (hostPlain "localhost").hostname = "localhost" ∧
    execute_on_host none (fun _ _ => SpawnResult.exited true "")
        (Except.error MusshErrKind.SshSession) (hostPlain "localhost") "n" "c" 0 0
      = Except.error MusshErrKind.ShellNotFound :=
  ⟨rfl, (localhost_error_contract none (fun _ _ => SpawnResult.exited true "")
    (Except.error MusshErrKind.SshSession) (hostPlain "localhost") "n" "c" 0 0 rfl).1 rfl⟩

/-! ### Duration formatting (claim C9) -/

/-- C9.  Duration formatting: `convert_duration` renders `00:00:00.mmm`
with the three-digit sub-second millisecond remainder below one second,
`00:00:SS.mmm` below one minute, `00:MM:SS.mmm` below one hour,
`H:MM:SS.mmm` (no leading zero on hours) below one day, and
`<seconds>s` from one day on. -/
theorem convert_duration_spec_eq (secs millis : Nat) (_h : millis < 1000) :
    convert_duration secs millis = convert_duration_spec secs millis := by
  unfold convert_duration convert_duration_spec
  by_cases h1 : secs < 1
  · rw [if_pos h1, if_pos h1]
    have hz : secs = 0 := by omega
    subst hz
    norm_num
  · rw [if_neg h1, if_neg h1]
    by_cases h2 : secs < 60
    · rw [if_pos h2, if_pos h2]
    · rw [if_neg h2, if_neg h2]
      by_cases h3 : secs < 3600
      · rw [if_pos h3, if_pos h3]
      · rw [if_neg h3, if_neg h3]
        by_cases h4 : secs < 86400
        · rw [if_pos h4, if_pos h4, Nat.div_div_eq_div_mul]
        · rw [if_neg h4, if_neg h4]

/-- Witness for C9 at a concrete duration. -/
theorem convert_duration_spec_eq_witness :
    42 < 1000 ∧ convert_duration 3725 42 = convert_duration_spec 3725 42 :=
  ⟨by norm_num, convert_duration_spec_eq 3725 42 (by norm_num)⟩

end Libmussh
